import Mathlib

/-!
# Verification of the local JSON database in `src/database/firebase.js`

The repository's single source file implements a file-backed key-value
store: an in-memory cache of tables (`cache`), a per-table debounced
write scheduler (`writeQueues` + `saveTable` + `flushAll`), and four
record primitives (`get`, `set`, `del`, `getAll`) plus a domain API
(`Database.addBalance`, `Database.removeBalance`, ...).

Embedding choices, faithful to the JavaScript source:
* A JSON value is modelled by `JVal` (JavaScript numbers as `Int`; the
  balance arithmetic the claims exercise is integer-valued).
* A JavaScript object is an insertion-ordered association list of
  fields; `setEntry` models property assignment `o[k] = v` (overwrite
  in place, else append), `List.lookup` models property read.
* A table file on disk is modelled by the JSON value it parses to:
  `disk` maps a table name to `Option Table`, where `none` models a
  missing **or unparsable** file (both are absorbed by the same
  `try/catch` in `loadTable`).
* `writeQueues` is modelled by `queues : List (String × Bool)`:
  an entry `(n, true)` is an armed timer for table `n`, an entry
  `(n, false)` is a timer handle that was cleared by `flushAll` but —
  exactly as in the source, which never deletes the key there — still
  sits in the map.
* `writeLog` is a ghost log of the successful `fs.writeFileSync` calls,
  used to state the "exactly one on-disk write" claims.
-/

set_option autoImplicit false

namespace Shadow

/-- A JavaScript/JSON value. `num` carries an `Int`: every numeric value the
claims exercise is integer-valued, where JavaScript would use a float. -/
inductive JVal where
  | null
  | bool (b : Bool)
  | num (n : Int)
  | str (s : String)
  | arr (xs : List JVal)
  | obj (fields : List (String × JVal))

/-- A table's in-memory mapping: key → record, insertion-ordered, as a
JavaScript object is. -/
abbrev Table := List (String × JVal)

/-- JavaScript property assignment `o[k] = v` on an insertion-ordered
association list: overwrite the existing entry in place, else append. -/
def setEntry {α : Type} : List (String × α) → String → α → List (String × α)
  | [], k, v => [(k, v)]
  | p :: l, k, v => if p.1 = k then (k, v) :: l else p :: setEntry l k v

/-- JavaScript property deletion `delete o[k]`: drop the entry with key `k`. -/
def removeKey {α : Type} : List (String × α) → String → List (String × α)
  | [], _ => []
  | p :: l, k => if p.1 = k then removeKey l k else p :: removeKey l k

/-- JavaScript truthiness of a `JVal` (`undefined` does not arise: absence is
represented by `Option.none` at the lookup sites). -/
def truthy : JVal → Bool
  | .null => false
  | .bool b => b
  | .num n => n != 0
  | .str s => s ≠ ""
  | .arr _ => true
  | .obj _ => true

/-- The guard of `set`'s merge branch:
`typeof value === 'object' && value !== null && !Array.isArray(value)`. -/
def isPlainObject : JVal → Bool
  | .obj _ => true
  | _ => false

/-- The own enumerable properties contributed by `{...v}` spread:
objects give their fields, arrays and strings give index-keyed entries,
`null`, booleans and numbers spread to nothing. -/
def spreadFields : JVal → List (String × JVal)
  | .obj fs => fs
  | .arr xs => xs.enum.map (fun p => (toString p.1, p.2))
  | .str s => s.data.enum.map (fun p => (toString p.1, JVal.str (String.mk [p.2])))
  | _ => []

/-- `{...base, ...new}` once `base` is already a field list: apply `new`'s
fields left to right, each as a property assignment. -/
def objSpread (base new : List (String × JVal)) : List (String × JVal) :=
  new.foldl (fun acc p => setEntry acc p.1 p.2) base

/-- The mutable module state of `firebase.js`: the table cache, the
`writeQueues` map (value `true` = armed timer, `false` = cleared handle left
behind by `flushAll`), the parsed on-disk files (`none` = missing or
unparsable), and a ghost log of completed disk writes. -/
structure DBState where
  cache : List (String × Table)
  queues : List (String × Bool)
  disk : List (String × Table)
  writeLog : List (String × Table)

/-- The module state at process start, given the data directory's files. -/
def initState (d : List (String × Table)) : DBState :=
  { cache := [], queues := [], disk := d, writeLog := [] }

/-- `loadTable(name)`: return the cached mapping if present (cached values
are JavaScript objects, hence always truthy); otherwise parse the file,
falling back to `{}` on a missing or unparsable file, and cache the result. -/
def loadTable (s : DBState) (name : String) : Table × DBState :=
  match List.lookup name s.cache with
  | some t => (t, s)
  | none =>
      let t := (List.lookup name s.disk).getD []
      (t, { s with cache := setEntry s.cache name t })

/-- `saveTable(name)`: cancel any pending timer for `name` and arm a fresh
one (`clearTimeout` + `setTimeout`), i.e. (re)set the queue entry to armed. -/
def saveTable (s : DBState) (name : String) : DBState :=
  { s with queues := setEntry s.queues name true }

/-- The body of the timer armed by `saveTable`, firing for table `name`:
write `cache[name] || {}` to disk (`ok = false` models a swallowed
`writeFileSync` error), then `delete writeQueues[name]`. Only an armed
timer can fire. -/
def fireTimer (s : DBState) (name : String) (ok : Bool) : DBState :=
  match List.lookup name s.queues with
  | some true =>
      let tbl := (List.lookup name s.cache).getD []
      { s with
        queues := removeKey s.queues name
        disk := if ok then setEntry s.disk name tbl else s.disk
        writeLog := if ok then s.writeLog ++ [(name, tbl)] else s.writeLog }
  | _ => s

/-- `get(table, key)`: load the table, return `db[key] ?? null`. -/
def get (s : DBState) (table key : String) : JVal × DBState :=
  ((List.lookup key (loadTable s table).1).getD .null, (loadTable s table).2)

/-- The record stored by `set`: the shallow merge `{ ...(db[key] || {}), ...fs }`
when `value` is a non-null, non-array object, `value` itself otherwise. -/
def setRecord (db : Table) (key : String) (value : JVal) : JVal :=
  match value with
  | .obj fs =>
      let old := (List.lookup key db).getD .null
      let base := if truthy old then old else .obj []
      JVal.obj (objSpread (spreadFields base) fs)
  | v => v

/-- `set(table, key, value)`: store `setRecord` under `key` in the loaded
table, then schedule a write. -/
def set (s : DBState) (table key : String) (value : JVal) : DBState :=
  let db := (loadTable s table).1
  saveTable
    { (loadTable s table).2 with
      cache := setEntry (loadTable s table).2.cache table
        (setEntry db key (setRecord db key value)) }
    table

/-- `del(table, key)`: remove the key (a no-op on an absent key) and
schedule a write. -/
def del (s : DBState) (table key : String) : DBState :=
  saveTable
    { (loadTable s table).2 with
      cache := setEntry (loadTable s table).2.cache table
        (removeKey (loadTable s table).1 key) }
    table

/-- `getAll(table)`: the table's full in-memory mapping. -/
def getAll (s : DBState) (table : String) : Table × DBState :=
  loadTable s table

/-- `flushAll()`: for every key of `writeQueues` — armed or stale — clear
the timer and synchronously write `cache[name] || {}`, swallowing each
write error independently (`fail name = true` models `writeFileSync`
throwing for that table). The source never deletes the queue entries here,
so they remain, cleared. -/
def flushAll (s : DBState) (fail : String → Bool) : DBState :=
  { s with
    queues := s.queues.map (fun p => (p.1, false))
    disk := s.queues.foldl
      (fun d p =>
        if fail p.1 then d
        else setEntry d p.1 ((List.lookup p.1 s.cache).getD []))
      s.disk
    writeLog := s.writeLog ++ s.queues.filterMap
      (fun p =>
        if fail p.1 then none
        else some (p.1, (List.lookup p.1 s.cache).getD [])) }

/-- An event of the single-threaded event loop: one primitive call, one
timer expiry, or one `flushAll`. -/
inductive Ev where
  | evGet (t k : String)
  | evGetAll (t : String)
  | evSet (t k : String) (v : JVal)
  | evDel (t k : String)
  | evFire (t : String) (ok : Bool)
  | evFlush (fail : String → Bool)

/-- One step of the event loop. -/
def step (s : DBState) : Ev → DBState
  | .evGet t k => (get s t k).2
  | .evGetAll t => (getAll s t).2
  | .evSet t k v => set s t k v
  | .evDel t k => del s t k
  | .evFire t ok => fireTimer s t ok
  | .evFlush fail => flushAll s fail

/-- Run a sequence of events. -/
def run (s : DBState) (es : List Ev) : DBState :=
  es.foldl step s

/-- `e` is a mutation (`set` or `del`) on table `t`. -/
def isMutOn (t : String) : Ev → Prop
  | .evSet t' _ _ => t' = t
  | .evDel t' _ => t' = t
  | _ => False

/-- The keys of an association list are pairwise distinct (true of every
JavaScript object, in particular of `writeQueues`). -/
def keysNodup {α : Type} (l : List (String × α)) : Prop :=
  (l.map Prod.fst).Nodup

/-! ## The table-name → file-path mapping

`dbFile(name)` is `path.join(DATA_DIR, name + ".json")` on a POSIX host:
concatenate with a separator and normalize, where normalizing an absolute
path splits on `/`, drops empty and `.` segments, lets `..` pop the
previous segment (or nothing at the root), and rejoins. Character lists
stand for the path strings. -/

/-- Split a character list on `/` (the segments of `String.splitOn "/"`). -/
def splitSlash : List Char → List (List Char)
  | [] => [[]]
  | c :: cs =>
      let r := splitSlash cs
      if c = '/' then [] :: r
      else
        match r with
        | [] => [[c]]
        | sg :: rest => (c :: sg) :: rest

/-- Normalization of an absolute path's segments: drop `""` and `"."`,
let `".."` pop the previous segment (no-op at the root). -/
def normSegs (segs : List (List Char)) : List (List Char) :=
  segs.foldl
    (fun acc sg =>
      if sg = [] ∨ sg = ['.'] then acc
      else if sg = ['.', '.'] then acc.dropLast
      else acc ++ [sg])
    []

/-- Rejoin segments with `/` separators. -/
def joinSegs : List (List Char) → List Char
  | [] => []
  | [sg] => sg
  | sg :: rest => sg ++ '/' :: joinSegs rest

/-- The data directory `path.join(__dirname, '../../data')`, modelled as a
fixed absolute path. -/
def DATA_DIR : List Char := "/bot/data".data

/-- `dbFile(name)`: `path.join(DATA_DIR, name + ".json")` — concatenation
with a `/`, then POSIX normalization of the absolute path. -/
def dbFile (name : String) : String :=
  ⟨'/' :: joinSegs (normSegs (splitSlash (DATA_DIR ++ '/' :: (name.data ++ ".json".data))))⟩

/-- No character of `cs` is the path separator. -/
def noSlash (cs : List Char) : Prop :=
  ∀ c ∈ cs, c ≠ '/'

/-! ## The economy balance API

`Database.getBalance` / `addBalance` / `removeBalance` from the source.
A truthy non-numeric `balance` field would make JavaScript fall into
`NaN` / implicit-coercion arithmetic, which the integer model does not
represent; such states are excluded by the `balanceModeled` hypothesis of
the theorems, and `balanceOf` maps them to `0` only to stay total. -/

/-- JavaScript property read `v.f` for the values reachable here: field
lookup on an object, `undefined` (i.e. `none`) on every non-object. -/
def member (v : JVal) (f : String) : Option JVal :=
  match v with
  | .obj fs => List.lookup f fs
  | _ => none

/-- `(user.balance || 0)` for an integer-balanced user. -/
def balanceOf (user : JVal) : Int :=
  match member user "balance" with
  | some (.num n) => n
  | some w => if truthy w then 0 else 0
  | none => 0

/-- The `balance` field of `user`, if present, is a number or falsy — the
states on which the integer model agrees with JavaScript arithmetic. -/
def balanceModeled (user : JVal) : Bool :=
  match member user "balance" with
  | some (.num _) => true
  | some w => !truthy w
  | none => true

/-- `get('users', jid) || { balance: 0 }` — the defaulted user record both
`addBalance` and `removeBalance` start from. -/
def effUser (s : DBState) (jid : String) : JVal :=
  let u := (get s "users" jid).1
  if truthy u then u else .obj [("balance", .num 0)]

namespace Database

/-- `Database.getBalance(jid)`: `user ? (user.balance || 0) : 0`. -/
def getBalance (s : DBState) (jid : String) : Int × DBState :=
  (if truthy (get s "users" jid).1 then balanceOf (get s "users" jid).1 else 0,
   (get s "users" jid).2)

/-- `Database.addBalance(jid, amount)`. -/
def addBalance (s : DBState) (jid : String) (amount : Int) : DBState :=
  set (get s "users" jid).2 "users" jid
    (.obj [("balance", .num (balanceOf (effUser s jid) + amount))])

/-- `Database.removeBalance(jid, amount)`: floor the new balance at zero,
store it, return it. -/
def removeBalance (s : DBState) (jid : String) (amount : Int) : Int × DBState :=
  (max 0 (balanceOf (effUser s jid) - amount),
   set (get s "users" jid).2 "users" jid
     (.obj [("balance", .num (max 0 (balanceOf (effUser s jid) - amount)))]))

end Database

/-! ## Association-list lemmas -/

theorem lookup_cons {α : Type} (p : String × α) (l : List (String × α)) (k : String) :
    List.lookup k (p :: l) = if k = p.1 then some p.2 else List.lookup k l := by
  rcases p with ⟨a, b⟩
  by_cases h : k = a
  · subst h; simp [List.lookup]
  · have hb : (k == a) = false := beq_false_of_ne h
    simp [List.lookup, hb, h]

theorem lookup_setEntry {α : Type} (l : List (String × α)) (k : String) (v : α)
    (k' : String) :
    List.lookup k' (setEntry l k v) = if k' = k then some v else List.lookup k' l := by
  induction l with
  | nil =>
      by_cases h : k' = k <;> simp [setEntry, lookup_cons, h]
  | cons p l ih =>
      by_cases hpk : p.1 = k
      · by_cases h : k' = k <;>
          simp [setEntry, hpk, lookup_cons, h]
      · by_cases h : k' = k
        · subst h
          have hne : k' ≠ p.1 := fun hh => hpk hh.symm
          simp [setEntry, hpk, lookup_cons, hne, ih]
        · simp [setEntry, hpk, lookup_cons, h, ih]

theorem lookup_eq_none_of_not_mem_keys {α : Type} (l : List (String × α))
    (k : String) (h : k ∉ l.map Prod.fst) : List.lookup k l = none := by
  induction l with
  | nil => rfl
  | cons p l ih =>
      simp only [List.map_cons, List.mem_cons, not_or] at h
      simp [lookup_cons, h.1, ih h.2]

theorem mem_keys_setEntry {α : Type} (l : List (String × α)) (k : String) (v : α)
    (x : String) (hx : x ∈ (setEntry l k v).map Prod.fst) :
    x = k ∨ x ∈ l.map Prod.fst := by
  induction l with
  | nil => simpa [setEntry] using hx
  | cons p l ih =>
      by_cases hpk : p.1 = k
      · simp only [setEntry, if_pos hpk, List.map_cons, List.mem_cons] at hx ⊢
        rcases hx with hx | hx
        · exact Or.inl hx
        · exact Or.inr (Or.inr hx)
      · simp only [setEntry, if_neg hpk, List.map_cons, List.mem_cons] at hx ⊢
        rcases hx with hx | hx
        · exact Or.inr (Or.inl hx)
        · rcases ih hx with h | h
          · exact Or.inl h
          · exact Or.inr (Or.inr h)

theorem keysNodup_setEntry {α : Type} (l : List (String × α)) (k : String) (v : α)
    (h : keysNodup l) : keysNodup (setEntry l k v) := by
  induction l with
  | nil => simp [keysNodup, setEntry]
  | cons p l ih =>
      rw [keysNodup, List.map_cons, List.nodup_cons] at h
      by_cases hpk : p.1 = k
      · subst hpk
        simpa [keysNodup, setEntry] using h
      · have hk := ih h.2
        rw [keysNodup, setEntry, if_neg hpk, List.map_cons, List.nodup_cons]
        refine ⟨fun hmem => ?_, hk⟩
        rcases mem_keys_setEntry l k v p.1 hmem with h' | h'
        · exact hpk h'
        · exact h.1 h'

theorem lookup_removeKey {α : Type} (l : List (String × α)) (k k' : String) :
    List.lookup k' (removeKey l k) =
      if k' = k then none else List.lookup k' l := by
  induction l with
  | nil => simp [removeKey, List.lookup]
  | cons p l ih =>
      rw [removeKey]
      by_cases hpk : p.1 = k
      · rw [if_pos hpk, ih, lookup_cons]
        by_cases h : k' = k
        · simp [h]
        · rw [if_neg h, if_neg h, if_neg (fun hh : k' = p.1 => h (hh.trans hpk))]
      · rw [if_neg hpk, lookup_cons, ih, lookup_cons]
        by_cases h : k' = p.1
        · simp [h, hpk]
        · have hkp : ¬k = p.1 := fun hh => hpk hh.symm
          by_cases h2 : k' = k <;> simp [h, h2, hkp]

theorem keys_removeKey_sublist {α : Type} (l : List (String × α)) (k : String) :
    ((removeKey l k).map Prod.fst).Sublist (l.map Prod.fst) := by
  induction l with
  | nil => simp [removeKey]
  | cons p l ih =>
      by_cases hpk : p.1 = k
      · simp only [removeKey, if_pos hpk, List.map_cons]
        exact ih.trans (List.sublist_cons_self _ _)
      · simp only [removeKey, if_neg hpk, List.map_cons]
        exact ih.cons₂ _

theorem lookup_objSpread (new old : List (String × JVal)) (f : String)
    (hnd : (new.map Prod.fst).Nodup) :
    List.lookup f (objSpread old new) =
      match List.lookup f new with
      | some v => some v
      | none => List.lookup f old := by
  induction new generalizing old with
  | nil => simp [objSpread, List.lookup]
  | cons p rest ih =>
      rw [List.map_cons, List.nodup_cons] at hnd
      have hstep : objSpread old (p :: rest) = objSpread (setEntry old p.1 p.2) rest := by
        simp [objSpread]
      rw [hstep, ih (setEntry old p.1 p.2) hnd.2]
      by_cases h : f = p.1
      · have hnone : List.lookup p.1 rest = none :=
          lookup_eq_none_of_not_mem_keys rest p.1 hnd.1
        simp [h, hnone, lookup_cons, lookup_setEntry]
      · cases hlf : List.lookup f rest <;>
          simp [hlf, lookup_cons, h, lookup_setEntry]

/-! ## State-effect lemmas -/

theorem loadTable_queues (s : DBState) (n : String) :
    (loadTable s n).2.queues = s.queues := by
  unfold loadTable
  cases List.lookup n s.cache <;> rfl

theorem loadTable_disk (s : DBState) (n : String) :
    (loadTable s n).2.disk = s.disk := by
  unfold loadTable
  cases List.lookup n s.cache <;> rfl

theorem loadTable_writeLog (s : DBState) (n : String) :
    (loadTable s n).2.writeLog = s.writeLog := by
  unfold loadTable
  cases List.lookup n s.cache <;> rfl

theorem loadTable_cache_mono (s : DBState) (n m : String) (t : Table)
    (h : List.lookup m s.cache = some t) :
    List.lookup m (loadTable s n).2.cache = some t := by
  unfold loadTable
  cases hc : List.lookup n s.cache with
  | some t' => exact h
  | none =>
      show List.lookup m (setEntry s.cache n _) = some t
      rw [lookup_setEntry]
      by_cases hmn : m = n
      · rw [hmn] at h; rw [h] at hc; cases hc
      · rw [if_neg hmn]; exact h

theorem loadTable_caches (s : DBState) (n : String) :
    List.lookup n (loadTable s n).2.cache = some (loadTable s n).1 := by
  unfold loadTable
  cases hc : List.lookup n s.cache with
  | some t => exact hc
  | none =>
      show List.lookup n (setEntry s.cache n _) = some _
      rw [lookup_setEntry, if_pos rfl]

theorem loadTable_fst_of_cached (s : DBState) (n : String) (t : Table)
    (h : List.lookup n s.cache = some t) : (loadTable s n).1 = t := by
  unfold loadTable
  rw [h]

theorem loadTable_fst_of_uncached (s : DBState) (n : String)
    (h : List.lookup n s.cache = none) :
    (loadTable s n).1 = (List.lookup n s.disk).getD [] := by
  unfold loadTable
  rw [h]

theorem set_cache_lookup (s : DBState) (table key : String) (v : JVal) :
    List.lookup table (set s table key v).cache =
      some (setEntry (loadTable s table).1 key (setRecord (loadTable s table).1 key v)) := by
  simp [set, saveTable, lookup_setEntry]

theorem set_queues (s : DBState) (table key : String) (v : JVal) :
    (set s table key v).queues = setEntry s.queues table true := by
  simp [set, saveTable, loadTable_queues]

theorem set_writeLog (s : DBState) (table key : String) (v : JVal) :
    (set s table key v).writeLog = s.writeLog := by
  simp [set, saveTable, loadTable_writeLog]

theorem set_disk (s : DBState) (table key : String) (v : JVal) :
    (set s table key v).disk = s.disk := by
  simp [set, saveTable, loadTable_disk]

theorem del_cache_lookup (s : DBState) (table key : String) :
    List.lookup table (del s table key).cache =
      some (removeKey (loadTable s table).1 key) := by
  simp [del, saveTable, lookup_setEntry]

theorem del_queues (s : DBState) (table key : String) :
    (del s table key).queues = setEntry s.queues table true := by
  simp [del, saveTable, loadTable_queues]

theorem del_writeLog (s : DBState) (table key : String) :
    (del s table key).writeLog = s.writeLog := by
  simp [del, saveTable, loadTable_writeLog]

theorem del_disk (s : DBState) (table key : String) :
    (del s table key).disk = s.disk := by
  simp [del, saveTable, loadTable_disk]

theorem any_key_of_lookup_isSome {α : Type} (l : List (String × α)) (k : String)
    (h : (List.lookup k l).isSome) : l.any (fun p => p.1 == k) = true := by
  induction l with
  | nil => simp [List.lookup] at h
  | cons p l ih =>
      rw [lookup_cons] at h
      by_cases hk : k = p.1
      · simp [List.any_cons, hk]
      · rw [if_neg hk] at h
        simp [List.any_cons, ih h]

theorem lookup_foldl_writes (fail : String → Bool) (cacheL : List (String × Table))
    (l : List (String × Bool)) (d : List (String × Table)) (name : String) :
    List.lookup name
      (l.foldl
        (fun acc p =>
          if fail p.1 then acc
          else setEntry acc p.1 ((List.lookup p.1 cacheL).getD []))
        d) =
    if l.any (fun p => p.1 == name) && !fail name then
      some ((List.lookup name cacheL).getD [])
    else List.lookup name d := by
  induction l generalizing d with
  | nil => simp
  | cons p rest ih =>
      rw [List.foldl_cons, List.any_cons, ih]
      by_cases hp : p.1 = name
      · by_cases hf : fail name
        · simp [hp, hf]
        · by_cases h2 : rest.any (fun p => p.1 == name) <;>
            simp [hp, hf, h2, lookup_setEntry]
      · have hp' : ¬(p.1 == name) = true := by simp [hp]
        have hnp : ¬name = p.1 := fun hh => hp hh.symm
        by_cases hf : fail p.1 <;>
          by_cases h2 : rest.any (fun p => p.1 == name) <;>
          by_cases h3 : fail name <;>
          simp [hp, hp', hnp, hf, h2, h3, lookup_setEntry]

theorem flushAll_disk_lookup (s : DBState) (fail : String → Bool) (name : String)
    (hq : (List.lookup name s.queues).isSome) (hf : fail name = false) :
    List.lookup name (flushAll s fail).disk =
      some ((List.lookup name s.cache).getD []) := by
  show List.lookup name
      (s.queues.foldl
        (fun d p =>
          if fail p.1 then d
          else setEntry d p.1 ((List.lookup p.1 s.cache).getD []))
        s.disk) = _
  rw [lookup_foldl_writes fail s.cache s.queues s.disk name,
    any_key_of_lookup_isSome s.queues name hq, hf]
  rfl

theorem flushAll_cache (s : DBState) (fail : String → Bool) :
    (flushAll s fail).cache = s.cache := rfl

theorem fireTimer_armed (s : DBState) (name : String) (ok : Bool)
    (h : List.lookup name s.queues = some true) :
    fireTimer s name ok =
      { s with
        queues := removeKey s.queues name
        disk := if ok then setEntry s.disk name ((List.lookup name s.cache).getD [])
          else s.disk
        writeLog := if ok then s.writeLog ++ [(name, (List.lookup name s.cache).getD [])]
          else s.writeLog } := by
  unfold fireTimer
  rw [h]

theorem step_mut (s : DBState) (t : String) (e : Ev) (h : isMutOn t e) :
    (step s e).writeLog = s.writeLog ∧
    (step s e).disk = s.disk ∧
    List.lookup t (step s e).queues = some true := by
  cases e with
  | evSet t' k v =>
      have ht : t' = t := h
      subst ht
      exact ⟨set_writeLog s t' k v, set_disk s t' k v, by
        show List.lookup t' (set s t' k v).queues = some true
        rw [set_queues, lookup_setEntry, if_pos rfl]⟩
  | evDel t' k =>
      have ht : t' = t := h
      subst ht
      exact ⟨del_writeLog s t' k, del_disk s t' k, by
        show List.lookup t' (del s t' k).queues = some true
        rw [del_queues, lookup_setEntry, if_pos rfl]⟩
  | evGet a b => exact h.elim
  | evGetAll a => exact h.elim
  | evFire a b => exact h.elim
  | evFlush a => exact h.elim

theorem step_keysNodup (s : DBState) (e : Ev) (h : keysNodup s.queues) :
    keysNodup (step s e).queues := by
  cases e with
  | evGet t k =>
      show keysNodup (get s t k).2.queues
      simpa [get, loadTable_queues] using h
  | evGetAll t =>
      show keysNodup (getAll s t).2.queues
      simpa [getAll, loadTable_queues] using h
  | evSet t k v =>
      show keysNodup (set s t k v).queues
      rw [set_queues]
      exact keysNodup_setEntry s.queues t true h
  | evDel t k =>
      show keysNodup (del s t k).queues
      rw [del_queues]
      exact keysNodup_setEntry s.queues t true h
  | evFire t ok =>
      show keysNodup (fireTimer s t ok).queues
      unfold fireTimer
      cases hc : List.lookup t s.queues with
      | none => exact h
      | some b =>
          cases b with
          | false => exact h
          | true => exact (keys_removeKey_sublist s.queues t).nodup h
  | evFlush fail =>
      show keysNodup (flushAll s fail).queues
      simpa [flushAll, keysNodup, List.map_map, Function.comp] using h

/-! ## Path-normalization lemmas -/

theorem splitSlash_slash (cs : List Char) :
    splitSlash ('/' :: cs) = [] :: splitSlash cs := by
  simp [splitSlash]

theorem splitSlash_append_noslash (xs cs : List Char) (sg : List Char)
    (rest : List (List Char)) (hx : noSlash xs) (h : splitSlash cs = sg :: rest) :
    splitSlash (xs ++ cs) = (xs ++ sg) :: rest := by
  induction xs with
  | nil => simpa using h
  | cons c xs ih =>
      have hc : c ≠ '/' := hx c (by simp)
      have hx' : noSlash xs := fun a ha => hx a (by simp [ha])
      rw [List.cons_append, splitSlash]
      simp only [if_neg hc, ih hx', List.cons_append]

theorem splitSlash_noslash (xs : List Char) (hx : noSlash xs) :
    splitSlash xs = [xs] := by
  induction xs with
  | nil => rfl
  | cons c xs ih =>
      have hc : c ≠ '/' := hx c (by simp)
      have hx' : noSlash xs := fun a ha => hx a (by simp [ha])
      rw [splitSlash]
      simp only [if_neg hc, ih hx']

instance noSlash_decidable (cs : List Char) : Decidable (noSlash cs) :=
  inferInstanceAs (Decidable (∀ c ∈ cs, c ≠ '/'))

theorem json_ext_ne_nil (cs : List Char) : cs ++ ['.', 'j', 's', 'o', 'n'] ≠ [] := by
  intro h
  have hl := congrArg List.length h
  simp [List.length_append] at hl

theorem json_ext_ne_dot (cs : List Char) : cs ++ ['.', 'j', 's', 'o', 'n'] ≠ ['.'] := by
  intro h
  have hl := congrArg List.length h
  simp [List.length_append] at hl

theorem json_ext_ne_dotdot (cs : List Char) :
    cs ++ ['.', 'j', 's', 'o', 'n'] ≠ ['.', '.'] := by
  intro h
  have hl := congrArg List.length h
  simp [List.length_append] at hl

/-- On a name with no path separator, `dbFile` is plain concatenation:
normalization touches nothing. -/
theorem dbFile_noslash (name : String) (h : noSlash name.data) :
    dbFile name = ⟨"/bot/data/".data ++ (name.data ++ ".json".data)⟩ := by
  have hext : noSlash (name.data ++ ".json".data) := by
    intro c hc
    rcases List.mem_append.mp hc with hc | hc
    · exact h c hc
    · have hc' : c = '.' ∨ c = 'j' ∨ c = 's' ∨ c = 'o' ∨ c = 'n' := by
        simpa using hc
      rcases hc' with rfl | rfl | rfl | rfl | rfl <;> decide
  have hrest : splitSlash (name.data ++ ".json".data) = [name.data ++ ".json".data] :=
    splitSlash_noslash _ hext
  have hdata : splitSlash (("data".data : List Char) ++ '/' :: (name.data ++ ".json".data))
      = "data".data :: [name.data ++ ".json".data] := by
    apply splitSlash_append_noslash _ _ _ _ (by decide)
    rw [splitSlash_slash, hrest]
  have hbot : splitSlash (("bot".data : List Char) ++ '/' ::
        (("data".data : List Char) ++ '/' :: (name.data ++ ".json".data)))
      = "bot".data :: "data".data :: [name.data ++ ".json".data] := by
    apply splitSlash_append_noslash _ _ _ _ (by decide)
    rw [splitSlash_slash, hdata]
  have hfull : splitSlash (DATA_DIR ++ '/' :: (name.data ++ ".json".data))
      = [] :: "bot".data :: "data".data :: [name.data ++ ".json".data] := by
    show splitSlash ('/' :: (("bot".data : List Char) ++ '/' ::
        (("data".data : List Char) ++ '/' :: (name.data ++ ".json".data)))) = _
    rw [splitSlash_slash, hbot]
  have hnorm : normSegs ([] :: "bot".data :: "data".data :: [name.data ++ ".json".data])
      = ["bot".data, "data".data, name.data ++ ".json".data] := by
    simp [normSegs, json_ext_ne_nil, json_ext_ne_dot, json_ext_ne_dotdot]
  rw [dbFile, hfull, hnorm]
  rfl

/-- After cancelling the shared prefix and suffix, distinct slash-free
names give distinct files. -/
theorem dbFile_inj_noslash (n1 n2 : String) (h1 : noSlash n1.data)
    (h2 : noSlash n2.data) (hne : n1 ≠ n2) : dbFile n1 ≠ dbFile n2 := by
  intro he
  rw [dbFile_noslash n1 h1, dbFile_noslash n2 h2] at he
  have hdata := congrArg String.data he
  simp only [String.data] at hdata
  have hmid := List.append_cancel_left hdata
  have hname := List.append_cancel_right hmid
  apply hne
  cases n1 with
  | mk d1 =>
      cases n2 with
      | mk d2 => exact congrArg String.mk hname

/-! ## Glue lemmas -/

theorem get_fst (s : DBState) (table key : String) :
    (get s table key).1 = (List.lookup key (loadTable s table).1).getD .null := rfl

theorem setRecord_non_obj (db : Table) (key : String) (v : JVal)
    (hv : isPlainObject v = false) : setRecord db key v = v := by
  cases v <;> simp [isPlainObject] at hv ⊢ <;> rfl

theorem run_muts (t : String) (es : List Ev) :
    (∀ e ∈ es, isMutOn t e) →
    ∀ s : DBState,
      (run s es).writeLog = s.writeLog ∧
      (run s es).disk = s.disk ∧
      (es ≠ [] → List.lookup t (run s es).queues = some true) := by
  induction es with
  | nil =>
      intro _ s
      exact ⟨rfl, rfl, fun h => absurd rfl h⟩
  | cons e rest ih =>
      intro hall s
      have he : isMutOn t e := hall e (by simp)
      have hrest : ∀ e' ∈ rest, isMutOn t e' := fun e' h' => hall e' (by simp [h'])
      have hs := step_mut s t e he
      have hr := ih hrest (step s e)
      have hrun : run s (e :: rest) = run (step s e) rest := rfl
      refine ⟨?_, ?_, fun _ => ?_⟩
      · rw [hrun, hr.1, hs.1]
      · rw [hrun, hr.2.1, hs.2.1]
      · rcases rest with _ | ⟨e2, rest2⟩
        · rw [hrun]
          exact hs.2.2
        · rw [hrun]
          exact hr.2.2 (by simp)

theorem getBalance_eq_balanceOf_effUser (s : DBState) (jid : String) :
    (Database.getBalance s jid).1 = balanceOf (effUser s jid) := by
  unfold Database.getBalance effUser
  by_cases h : truthy (get s "users" jid).1 <;>
    simp [h, balanceOf, member]

theorem getBalance_after_set_balance (s1 : DBState) (jid : String) (b : Int) :
    (Database.getBalance (set s1 "users" jid (.obj [("balance", .num b)])) jid).1 = b := by
  have hc := set_cache_lookup s1 "users" jid (.obj [("balance", .num b)])
  have hl := loadTable_fst_of_cached _ "users" _ hc
  unfold Database.getBalance
  rw [get_fst, hl, lookup_setEntry, if_pos rfl]
  simp [setRecord, truthy, balanceOf, member, objSpread, lookup_setEntry]

/-! ## The claims -/

/-- C1: when the stored value is a plain object and the existing record is a
plain object, `set` replaces the record with their shallow merge — fields of
the new value overwrite same-named fields, fields only in the old record
survive; in particular `set(T,K,{a:1})` then `set(T,K,{b:2})` from nothing
yields `get(T,K) = {a:1, b:2}`. -/
theorem C1_set_merge (s : DBState) (T K : String) (new old : List (String × JVal))
    (hold : List.lookup K (loadTable s T).1 = some (.obj old))
    (hnd : (new.map Prod.fst).Nodup) :
    List.lookup K (getAll (set s T K (.obj new)) T).1 =
        some (.obj (objSpread old new)) ∧
    (∀ f v, List.lookup f new = some v →
      List.lookup f (objSpread old new) = some v) ∧
    (∀ f, List.lookup f new = none →
      List.lookup f (objSpread old new) = List.lookup f old) ∧
    (get (set (set (initState []) "T" "K" (.obj [("a", .num 1)])) "T" "K"
        (.obj [("b", .num 2)])) "T" "K").1
      = .obj [("a", .num 1), ("b", .num 2)] := by
  refine ⟨?_, ?_, ?_, rfl⟩
  · have hc := set_cache_lookup s T K (.obj new)
    have hfst := loadTable_fst_of_cached _ T _ hc
    show List.lookup K (loadTable (set s T K (.obj new)) T).1 = _
    rw [hfst, lookup_setEntry, if_pos rfl]
    simp [setRecord, hold, truthy, spreadFields]
  · intro f v hf
    rw [lookup_objSpread new old f hnd, hf]
  · intro f hf
    rw [lookup_objSpread new old f hnd, hf]

/-- C1 witness: the general part applied after the scenario's first `set`. -/
theorem C1_set_merge_witness :
    List.lookup "K"
        (getAll (set (set (initState []) "T" "K" (.obj [("a", .num 1)])) "T" "K"
          (.obj [("b", .num 2)])) "T").1
      = some (.obj (objSpread [("a", .num 1)] [("b", .num 2)])) :=
  (C1_set_merge (set (initState []) "T" "K" (.obj [("a", .num 1)])) "T" "K"
    [("b", .num 2)] [("a", .num 1)] rfl (by simp)).1

/-- C2: when the stored value is a list or a scalar, `set` replaces the
record outright — no merging — and `get` then returns exactly that value;
in particular a prior object record is discarded by `set(T,K,[1,2])`. -/
theorem C2_set_replace (s : DBState) (T K : String) (v : JVal)
    (hv : isPlainObject v = false) :
    List.lookup K (getAll (set s T K v) T).1 = some v ∧
    (get (set s T K v) T K).1 = v ∧
    (get (set (set (initState []) "T" "K" (.obj [("a", .num 1)])) "T" "K"
        (.arr [.num 1, .num 2])) "T" "K").1 = .arr [.num 1, .num 2] := by
  have hc := set_cache_lookup s T K v
  have hfst := loadTable_fst_of_cached _ T _ hc
  have h1 : List.lookup K (getAll (set s T K v) T).1 = some v := by
    show List.lookup K (loadTable (set s T K v) T).1 = _
    rw [hfst, setRecord_non_obj _ _ _ hv, lookup_setEntry, if_pos rfl]
  refine ⟨h1, ?_, rfl⟩
  rw [get_fst]
  have h1' : List.lookup K (loadTable (set s T K v) T).1 = some v := h1
  rw [h1']
  rfl

/-- C2 witness: replacing a prior object record by the array `[1,2]`. -/
theorem C2_set_replace_witness :
    List.lookup "K"
        (getAll (set (set (initState []) "T" "K" (.obj [("a", .num 1)])) "T" "K"
          (.arr [.num 1, .num 2])) "T").1
      = some (.arr [.num 1, .num 2]) :=
  (C2_set_replace (set (initState []) "T" "K" (.obj [("a", .num 1)])) "T" "K"
    (.arr [.num 1, .num 2]) rfl).1

/-- C3, counterexample: a table can be in-memory cached (here `"t"`, loaded
as `{}` because its file is absent/unparsable) with no pending write; no
write fails, yet after `flushAll()` its on-disk file still does not hold
the serialization of its cached mapping — `flushAll` only visits
`writeQueues` keys. -/
theorem C3_flushAll_counterexample :
    List.lookup "t" (flushAll (get (initState []) "t" "k").2 (fun _ => false)).cache
        = some [] ∧
    (flushAll (get (initState []) "t" "k").2 (fun _ => false)).writeLog = [] ∧
    List.lookup "t" (flushAll (get (initState []) "t" "k").2 (fun _ => false)).disk
        = none :=
  ⟨rfl, rfl, rfl⟩

/-- C3, amended: after `flushAll()`, every table with an entry in the write
queue whose synchronous write did not fail has on disk exactly the
serialization of its current in-memory mapping, regardless of which other
tables' writes failed (per-table independence). Tables that are merely
cached, with no queue entry, are not flushed. -/
theorem C3_flushAll_amended (s : DBState) (fail : String → Bool) (name : String)
    (hq : (List.lookup name s.queues).isSome) (hf : fail name = false) :
    List.lookup name (flushAll s fail).disk =
      some ((List.lookup name s.cache).getD []) :=
  flushAll_disk_lookup s fail name hq hf

/-- C3 witness: table `"b"` is flushed even though table `"a"`'s write
fails. -/
theorem C3_flushAll_amended_witness :
    List.lookup "b"
        (flushAll (set (set (initState []) "a" "x" (.num 1)) "b" "y" (.num 2))
          (fun n => n == "a")).disk
      = some ((List.lookup "b"
          (set (set (initState []) "a" "x" (.num 1)) "b" "y" (.num 2)).cache).getD []) :=
  C3_flushAll_amended (set (set (initState []) "a" "x" (.num 1)) "b" "y" (.num 2))
    (fun n => n == "a") "b" rfl rfl

/-- C4, counterexample: the table-name → file-path mapping is not
injective: the distinct names `"b"` and `"./b"` resolve to the same file,
because `path.join` normalizes the `.` segment away. -/
theorem C4_dbFile_counterexample :
    ("b" : String) ≠ "./b" ∧ dbFile "b" = dbFile "./b" :=
  ⟨by decide, by decide⟩

/-- C4, amended: restricted to table names containing no path-separator
character, the mapping is deterministic (it is a function) and injective:
distinct separator-free names always resolve to distinct files. -/
theorem C4_dbFile_amended (n1 n2 : String) (h1 : noSlash n1.data)
    (h2 : noSlash n2.data) (hne : n1 ≠ n2) : dbFile n1 ≠ dbFile n2 :=
  dbFile_inj_noslash n1 n2 h1 h2 hne

/-- C4 witness: two of the table names the source actually uses. -/
theorem C4_dbFile_amended_witness : dbFile "users" ≠ dbFile "warns" :=
  C4_dbFile_amended "users" "warns" (by decide) (by decide) (by decide)

/-- C5: on a cache miss whose file read/parse fails (missing or unparsable
file, both `none` in the disk model), `loadTable` returns the empty
mapping, caches it, and — being a total function of the state — raises
nothing to the caller. -/
theorem C5_loadTable_failure (s : DBState) (name : String)
    (hc : List.lookup name s.cache = none)
    (hd : List.lookup name s.disk = none) :
    (loadTable s name).1 = [] ∧
    loadTable s name = ([], { s with cache := setEntry s.cache name [] }) ∧
    List.lookup name (loadTable s name).2.cache = some [] := by
  have hload : loadTable s name = ([], { s with cache := setEntry s.cache name [] }) := by
    unfold loadTable
    rw [hc, hd]
    rfl
  refine ⟨by rw [hload], hload, ?_⟩
  rw [hload]
  show List.lookup name (setEntry s.cache name []) = some []
  rw [lookup_setEntry, if_pos rfl]

/-- C5 witness: loading `"t"` in a fresh process with no files. -/
theorem C5_loadTable_failure_witness :
    (loadTable (initState []) "t").1 = [] ∧
    loadTable (initState []) "t"
      = ([], { initState [] with cache := setEntry (initState []).cache "t" [] }) ∧
    List.lookup "t" (loadTable (initState []) "t").2.cache = some [] :=
  C5_loadTable_failure (initState []) "t" rfl rfl

/-- C6: (1) every event-loop step preserves distinctness of the write-queue
keys, so each table has at most one pending scheduled flush — arming while
armed replaces rather than stacks; (2) a burst of N ≥ 1 mutations on one
table performs no disk write itself, and the single timer expiry that
follows performs exactly one write, holding the table state after all N
mutations. -/
theorem C6_debounce_coalescing :
    (∀ (s : DBState) (e : Ev), keysNodup s.queues → keysNodup (step s e).queues) ∧
    (∀ (s : DBState) (t : String) (es : List Ev), es ≠ [] →
      (∀ e ∈ es, isMutOn t e) →
      (run s es).writeLog = s.writeLog ∧
      (step (run s es) (.evFire t true)).writeLog =
        s.writeLog ++ [(t, (List.lookup t (run s es).cache).getD [])]) := by
  constructor
  · exact fun s e h => step_keysNodup s e h
  · intro s t es hne hall
    have h := run_muts t es hall s
    refine ⟨h.1, ?_⟩
    have harm := h.2.2 hne
    show (fireTimer (run s es) t true).writeLog = _
    rw [fireTimer_armed _ _ _ harm]
    simp [h.1]

/-- C6 witness: two `set` calls on table `"t"`, then the timer fires once. -/
theorem C6_debounce_coalescing_witness :
    keysNodup (step (initState []) (.evSet "t" "k" (.num 1))).queues ∧
    (run (initState []) [Ev.evSet "t" "k" (.num 1), Ev.evSet "t" "k" (.num 2)]).writeLog
      = (initState []).writeLog ∧
    (step (run (initState []) [Ev.evSet "t" "k" (.num 1), Ev.evSet "t" "k" (.num 2)])
        (.evFire "t" true)).writeLog
      = (initState []).writeLog ++
        [("t", (List.lookup "t"
          (run (initState []) [Ev.evSet "t" "k" (.num 1), Ev.evSet "t" "k" (.num 2)]).cache).getD [])] := by
  refine ⟨C6_debounce_coalescing.1 (initState []) (.evSet "t" "k" (.num 1))
    (by simp [keysNodup, initState]), ?_, ?_⟩
  · exact (C6_debounce_coalescing.2 (initState []) "t"
      [Ev.evSet "t" "k" (.num 1), Ev.evSet "t" "k" (.num 2)] (by simp)
      (by
        intro e he
        rcases List.mem_cons.mp he with rfl | he2
        · exact rfl
        · rcases List.mem_cons.mp he2 with rfl | he3
          · exact rfl
          · cases he3)).1
  · exact (C6_debounce_coalescing.2 (initState []) "t"
      [Ev.evSet "t" "k" (.num 1), Ev.evSet "t" "k" (.num 2)] (by simp)
      (by
        intro e he
        rcases List.mem_cons.mp he with rfl | he2
        · exact rfl
        · rcases List.mem_cons.mp he2 with rfl | he3
          · exact rfl
          · cases he3)).2

/-- C7: a table flushed from an armed timer (or by a non-failing `flushAll`
write) reads back, in a fresh process with an empty cache, as exactly the
mapping that was flushed. -/
theorem C7_round_trip (s : DBState) (t : String)
    (harm : List.lookup t s.queues = some true) :
    (loadTable (initState (fireTimer s t true).disk) t).1 =
      (List.lookup t s.cache).getD [] ∧
    (∀ fail : String → Bool, fail t = false →
      (loadTable (initState (flushAll s fail).disk) t).1 =
        (List.lookup t s.cache).getD []) := by
  constructor
  · rw [loadTable_fst_of_uncached (initState (fireTimer s t true).disk) t (by rfl)]
    rw [fireTimer_armed s t true harm]
    show (List.lookup t (setEntry s.disk t ((List.lookup t s.cache).getD []))).getD [] = _
    rw [lookup_setEntry, if_pos rfl]
    rfl
  · intro fail hf
    rw [loadTable_fst_of_uncached (initState (flushAll s fail).disk) t (by rfl)]
    show (List.lookup t (flushAll s fail).disk).getD [] = _
    rw [flushAll_disk_lookup s fail t (by rw [harm]; rfl) hf]
    rfl

/-- C7 witness: set a record, fire the timer, reload in a fresh process. -/
theorem C7_round_trip_witness :
    (loadTable (initState (fireTimer (set (initState []) "t" "k" (.num 5)) "t" true).disk)
        "t").1
      = (List.lookup "t" (set (initState []) "t" "k" (.num 5)).cache).getD [] :=
  (C7_round_trip (set (initState []) "t" "k" (.num 5)) "t" rfl).1

/-- C8: `removeBalance` floors at zero — it returns
`max 0 (currentBalance − amount)` and stores that value as the new
balance; the `addBalance 50; addBalance 25; removeBalance 1000` scenario
ends at balance 0. The `balanceModeled` hypothesis excludes states whose
stored balance field is a truthy non-number, where JavaScript would leave
the integers for `NaN`/coercion arithmetic. -/
theorem C8_removeBalance_floor (s : DBState) (jid : String) (amount : Int)
    (_hmod : balanceModeled (effUser s jid) = true) :
    (Database.removeBalance s jid amount).1 =
      max 0 ((Database.getBalance s jid).1 - amount) ∧
    (Database.getBalance (Database.removeBalance s jid amount).2 jid).1 =
      max 0 ((Database.getBalance s jid).1 - amount) ∧
    (Database.removeBalance
        (Database.addBalance (Database.addBalance (initState []) "u1" 50) "u1" 25)
        "u1" 1000).1 = 0 ∧
    (Database.getBalance
        (Database.removeBalance
          (Database.addBalance (Database.addBalance (initState []) "u1" 50) "u1" 25)
          "u1" 1000).2 "u1").1 = 0 := by
  refine ⟨?_, ?_, rfl, rfl⟩
  · rw [getBalance_eq_balanceOf_effUser]
    rfl
  · have hr : (Database.getBalance (Database.removeBalance s jid amount).2 jid).1 =
        max 0 (balanceOf (effUser s jid) - amount) := by
      show (Database.getBalance
          (set (get s "users" jid).2 "users" jid
            (.obj [("balance", .num (max 0 (balanceOf (effUser s jid) - amount)))])) jid).1 = _
      exact getBalance_after_set_balance _ _ _
    rw [hr, getBalance_eq_balanceOf_effUser]

/-- C8 witness: the scenario state satisfies `balanceModeled`, and the
general part applied there. -/
theorem C8_removeBalance_floor_witness :
    (Database.removeBalance
        (Database.addBalance (Database.addBalance (initState []) "u1" 50) "u1" 25)
        "u1" 30).1 =
      max 0 ((Database.getBalance
        (Database.addBalance (Database.addBalance (initState []) "u1" 50) "u1" 25)
        "u1").1 - 30) :=
  (C8_removeBalance_floor
    (Database.addBalance (Database.addBalance (initState []) "u1" 50) "u1" 25)
    "u1" 30 rfl).1

/-- C9: `get` returns the current record, or the `null` absent marker for a
never-written key, and is observationally pure apart from the read-through
cache fill: it arms no timer, writes nothing, and modifies no loaded
table's mapping. -/
theorem C9_get_pure (s : DBState) (T K : String) :
    (get s T K).2.queues = s.queues ∧
    (get s T K).2.disk = s.disk ∧
    (get s T K).2.writeLog = s.writeLog ∧
    (∀ n tbl, List.lookup n s.cache = some tbl →
      List.lookup n (get s T K).2.cache = some tbl) ∧
    (get s T K).1 = (List.lookup K (loadTable s T).1).getD .null ∧
    (List.lookup K (loadTable s T).1 = none → (get s T K).1 = .null) := by
  refine ⟨loadTable_queues s T, loadTable_disk s T, loadTable_writeLog s T,
    fun n tbl h => loadTable_cache_mono s T n tbl h, rfl, fun h => ?_⟩
  rw [get_fst, h]
  rfl

/-- C9 witness: a never-written key in a loaded table. -/
theorem C9_get_pure_witness :
    (get (⟨[("t", [("k", JVal.num 1)])], [], [], []⟩ : DBState) "t" "k2").2.queues = [] ∧
    List.lookup "t"
        (get (⟨[("t", [("k", JVal.num 1)])], [], [], []⟩ : DBState) "t" "k2").2.cache
      = some [("k", JVal.num 1)] ∧
    (get (⟨[("t", [("k", JVal.num 1)])], [], [], []⟩ : DBState) "t" "k2").1 = .null := by
  have h := C9_get_pure (⟨[("t", [("k", JVal.num 1)])], [], [], []⟩ : DBState) "t" "k2"
  refine ⟨h.1, h.2.2.2.1 "t" [("k", JVal.num 1)] ?_, h.2.2.2.2.2 ?_⟩
  · show List.lookup "t" [("t", [("k", JVal.num 1)])] = some [("k", JVal.num 1)]
    rw [lookup_cons]
    simp
  · show List.lookup "k2"
        (loadTable (⟨[("t", [("k", JVal.num 1)])], [], [], []⟩ : DBState) "t").1 = none
    rw [loadTable_fst_of_cached _ "t" [("k", JVal.num 1)]
      (by show List.lookup "t" [("t", [("k", JVal.num 1)])] = some [("k", JVal.num 1)]
          rw [lookup_cons]
          simp)]
    rw [lookup_cons, if_neg (by decide)]
    rfl

/-- C10: storing `null` conflates presence with absence at the `get`
interface — after `set(T,K,null)` the key is present in `getAll(T)` with
value `null`, yet `get(T,K)` returns the very marker (`null`) it returns
for a never-written key. -/
theorem C10_null_conflation (s : DBState) (T K : String) :
    List.lookup K (getAll (set s T K .null) T).1 = some .null ∧
    (get (set s T K .null) T K).1 = .null ∧
    (∀ K0, List.lookup K0 (loadTable s T).1 = none → (get s T K0).1 = .null) := by
  have hc := set_cache_lookup s T K .null
  have hfst := loadTable_fst_of_cached _ T _ hc
  have h1 : List.lookup K (getAll (set s T K .null) T).1 = some .null := by
    show List.lookup K (loadTable (set s T K .null) T).1 = _
    rw [hfst, setRecord_non_obj _ _ JVal.null (by rfl), lookup_setEntry, if_pos rfl]
  refine ⟨h1, ?_, fun K0 h => ?_⟩
  · rw [get_fst]
    have h1' : List.lookup K (loadTable (set s T K .null) T).1 = some .null := h1
    rw [h1']
    rfl
  · rw [get_fst, h]
    rfl

/-- C10 witness: a concrete table where the stored-null key and a
never-written key are indistinguishable through `get`. -/
theorem C10_null_conflation_witness :
    List.lookup "k" (getAll (set (initState []) "t" "k" .null) "t").1 = some .null ∧
    (get (set (initState []) "t" "k" .null) "t" "k").1 = .null := by
  have h := C10_null_conflation (initState []) "t" "k"
  exact ⟨h.1, h.2.1⟩

end Shadow
